import Mathlib

/-!
Verification of the `sendstream_parser` crate: a shallow embedding of the
btrfs send-stream wire decoder (`src/lib.rs`, `src/wire/mod.rs`) and of the
command framing layer, together with proofs of the specification claims.

Bytes are modelled as `Nat` (values < 256 in every concrete buffer), byte
buffers as `List Nat`.  The fallible nom parsers are modelled as total
functions into an explicit result type that distinguishes a typed parse
error from a Rust panic (`assert_eq!` / `.expect("todo")` in the source).

The files `src/wire/cmd.rs` and `src/wire/tlv.rs` are declared by
`src/wire/mod.rs` (`pub(crate) mod cmd; mod tlv;`) but are not part of the
available sources; the command framer, TLV attribute decoder, command
builder and the wire encoder are modelled from the specification and are
marked `Modelled from the spec:` in their doc comments.
-/

namespace Btrfs

/-! ## Little-endian byte utilities -/

/-- Little-endian encoding of `n` into `k` bytes (low byte first). -/
def leBytes : Nat → Nat → List Nat
  | 0, _ => []
  | k + 1, n => (n % 256) :: leBytes k (n / 256)

/-- Little-endian value of a byte list (first byte is least significant). -/
def fromLE : List Nat → Nat
  | [] => 0
  | b :: rest => b + 256 * fromLE rest

/-- Consume two bytes as a little-endian u16 (`nom::number::complete::le_u16`). -/
def readU16 : List Nat → Option (Nat × List Nat)
  | a :: b :: rest => some (fromLE [a, b], rest)
  | _ => none

/-- Consume four bytes as a little-endian u32 (`nom::number::complete::le_u32`). -/
def readU32 : List Nat → Option (Nat × List Nat)
  | a :: b :: c :: d :: rest => some (fromLE [a, b, c, d], rest)
  | _ => none

/-! ## CRC32

Modelled from the spec: the integrity checksum is "a standard 32-bit cyclic
redundancy check" computed over the command header (with the crc32 field
zeroed) concatenated with the payload.  This is the reflected CRC32-IEEE
(polynomial 0xEDB88320, initial value and final xor 0xFFFFFFFF), computed
bitwise. -/

/-- One shift-xor round of the reflected CRC32 computation. -/
def crc32Round (c : Nat) : Nat :=
  if c % 2 = 1 then (c / 2) ^^^ 0xEDB88320 else c / 2

/-- Fold one input byte into the running CRC32 state. -/
def crc32Byte (c b : Nat) : Nat :=
  crc32Round (crc32Round (crc32Round (crc32Round
    (crc32Round (crc32Round (crc32Round (crc32Round (c ^^^ b % 256))))))))

/-- CRC32 of a byte list. -/
def crc32 (bs : List Nat) : Nat :=
  (bs.foldl crc32Byte 0xFFFFFFFF) ^^^ 0xFFFFFFFF

/-! ## Data model (`src/lib.rs`)

Scalar newtype wrappers of the source (`Ino`, `Mode`, `Rdev`, `Ctransid`,
`FileOffset`, `CloneLen`, `Uid`, `Gid`) are flattened to `Nat` fields, path
and data wrappers (`Cow<Path>`, `LinkTarget`, `XattrName`, `XattrData`,
`Data`, `Uuid`) to `List Nat` fields; field names follow the source. -/

/-- A timestamp, `std::time::SystemTime` represented as seconds and
nanoseconds since the epoch (nanoseconds < 10^9 after normalisation). -/
structure Time where
  secs : Nat
  nsecs : Nat
deriving DecidableEq

/-- `TemporaryPath` of `src/lib.rs`: an opaque provisional path for an entry
created before its final parent directory name is known. -/
structure TemporaryPath where
  path : List Nat
deriving DecidableEq

structure Subvol where
  path : List Nat
  uuid : List Nat
  ctransid : Nat
deriving DecidableEq

structure Chmod where
  path : List Nat
  mode : Nat
deriving DecidableEq

structure Chown where
  path : List Nat
  uid : Nat
  gid : Nat
deriving DecidableEq

structure Clone where
  src_offset : Nat
  len : Nat
  src_path : List Nat
  uuid : List Nat
  ctransid : Nat
  dst_path : List Nat
  dst_offset : Nat
deriving DecidableEq

structure Link where
  link_name : List Nat
  target : List Nat
deriving DecidableEq

structure Mkdir where
  path : TemporaryPath
  ino : Nat
deriving DecidableEq

structure Mkfifo where
  path : TemporaryPath
  ino : Nat
  rdev : Nat
  mode : Nat
deriving DecidableEq

structure Mkfile where
  path : TemporaryPath
  ino : Nat
deriving DecidableEq

structure Mknod where
  path : TemporaryPath
  ino : Nat
  rdev : Nat
  mode : Nat
deriving DecidableEq

structure Mksock where
  path : TemporaryPath
  ino : Nat
  rdev : Nat
  mode : Nat
deriving DecidableEq

structure RemoveXattr where
  path : List Nat
  name : List Nat
deriving DecidableEq

/-- `Rename` of the source; the source fields `from` and `to` are Lean
keywords and are written `from_` and `to_` here. -/
structure Rename where
  from_ : List Nat
  to_ : List Nat
deriving DecidableEq

structure Rmdir where
  path : List Nat
deriving DecidableEq

structure SetXattr where
  path : List Nat
  name : List Nat
  data : List Nat
deriving DecidableEq

structure Snapshot where
  path : List Nat
  uuid : List Nat
  ctransid : Nat
  clone_uuid : List Nat
  clone_ctransid : Nat
deriving DecidableEq

structure Symlink where
  link_name : List Nat
  ino : Nat
  target : List Nat
deriving DecidableEq

structure Truncate where
  path : List Nat
  size : Nat
deriving DecidableEq

structure Unlink where
  path : List Nat
deriving DecidableEq

structure UpdateExtent where
  path : List Nat
  offset : Nat
  len : Nat
deriving DecidableEq

structure Utimes where
  path : List Nat
  atime : Time
  mtime : Time
  ctime : Time
deriving DecidableEq

structure Write where
  path : List Nat
  offset : Nat
  data : List Nat
deriving DecidableEq

/-- The closed `Command` sum of `src/lib.rs` over 22 variants (`End` is the
unit variant, written `end_`). -/
inductive Command where
  | chmod (c : Chmod)
  | chown (c : Chown)
  | clone (c : Clone)
  | end_
  | link (c : Link)
  | mkdir (c : Mkdir)
  | mkfifo (c : Mkfifo)
  | mkfile (c : Mkfile)
  | mknod (c : Mknod)
  | mksock (c : Mksock)
  | removeXattr (c : RemoveXattr)
  | rename (c : Rename)
  | rmdir (c : Rmdir)
  | setXattr (c : SetXattr)
  | snapshot (c : Snapshot)
  | subvol (c : Subvol)
  | symlink (c : Symlink)
  | truncate (c : Truncate)
  | unlink (c : Unlink)
  | updateExtent (c : UpdateExtent)
  | utimes (c : Utimes)
  | write (c : Write)
deriving DecidableEq

/-- `Sendstream` of `src/lib.rs`: an ordered sequence of commands from one
magic-header-delimited section of the buffer. -/
structure Sendstream where
  commands : List Command
deriving DecidableEq

/-! ## Wire-level enumerations

Modelled from the spec: `src/wire/cmd.rs` (declared by `src/wire/mod.rs` but
missing from the sources) defines the closed 22-code command-type
enumeration and the attribute registry.  Numeric codes follow the btrfs
send-stream protocol (the wire enum also reserves code 0 as `Unspecified`,
which the parser never accepts). -/

inductive CommandType where
  | subvol | snapshot | mkfile | mkdir | mknod | mkfifo | mksock | symlink
  | rename | link | unlink | rmdir | setXattr | removeXattr | write | clone
  | truncate | chmod | chown | utimes | end_ | updateExtent
deriving DecidableEq

/-- Wire code of each command type. -/
def CommandType.code : CommandType → Nat
  | .subvol => 1
  | .snapshot => 2
  | .mkfile => 3
  | .mkdir => 4
  | .mknod => 5
  | .mkfifo => 6
  | .mksock => 7
  | .symlink => 8
  | .rename => 9
  | .link => 10
  | .unlink => 11
  | .rmdir => 12
  | .setXattr => 13
  | .removeXattr => 14
  | .write => 15
  | .clone => 16
  | .truncate => 17
  | .chmod => 18
  | .chown => 19
  | .utimes => 20
  | .end_ => 21
  | .updateExtent => 22

/-- Recognise a wire command-type code; an unrecognised code is a fatal
decode failure (`UnknownCommandType`). -/
def CommandType.fromCode : Nat → Option CommandType
  | 1 => some .subvol
  | 2 => some .snapshot
  | 3 => some .mkfile
  | 4 => some .mkdir
  | 5 => some .mknod
  | 6 => some .mkfifo
  | 7 => some .mksock
  | 8 => some .symlink
  | 9 => some .rename
  | 10 => some .link
  | 11 => some .unlink
  | 12 => some .rmdir
  | 13 => some .setXattr
  | 14 => some .removeXattr
  | 15 => some .write
  | 16 => some .clone
  | 17 => some .truncate
  | 18 => some .chmod
  | 19 => some .chown
  | 20 => some .utimes
  | 21 => some .end_
  | 22 => some .updateExtent
  | _ => none

/-- Attribute tags of the static attribute registry.  Modelled from the
spec: codes follow the btrfs send-stream protocol attribute numbering. -/
inductive AttrTag where
  | uuid | ctransid | ino | size | mode | uid | gid | rdev
  | ctime | mtime | atime | otime
  | xattrName | xattrData | path | pathTo | pathLink | fileOffset | data
  | cloneUuid | cloneCtransid | clonePath | cloneOffset | cloneLen
deriving DecidableEq

def AttrTag.code : AttrTag → Nat
  | .uuid => 1
  | .ctransid => 2
  | .ino => 3
  | .size => 4
  | .mode => 5
  | .uid => 6
  | .gid => 7
  | .rdev => 8
  | .ctime => 9
  | .mtime => 10
  | .atime => 11
  | .otime => 12
  | .xattrName => 13
  | .xattrData => 14
  | .path => 15
  | .pathTo => 16
  | .pathLink => 17
  | .fileOffset => 18
  | .data => 19
  | .cloneUuid => 20
  | .cloneCtransid => 21
  | .clonePath => 22
  | .cloneOffset => 23
  | .cloneLen => 24

/-- Resolve an attribute code against the registry; an unknown code is
tolerated and skipped by the TLV decoder. -/
def AttrTag.fromCode : Nat → Option AttrTag
  | 1 => some .uuid
  | 2 => some .ctransid
  | 3 => some .ino
  | 4 => some .size
  | 5 => some .mode
  | 6 => some .uid
  | 7 => some .gid
  | 8 => some .rdev
  | 9 => some .ctime
  | 10 => some .mtime
  | 11 => some .atime
  | 12 => some .otime
  | 13 => some .xattrName
  | 14 => some .xattrData
  | 15 => some .path
  | 16 => some .pathTo
  | 17 => some .pathLink
  | 18 => some .fileOffset
  | 19 => some .data
  | 20 => some .cloneUuid
  | 21 => some .cloneCtransid
  | 22 => some .clonePath
  | 23 => some .cloneOffset
  | 24 => some .cloneLen
  | _ => none

/-- Semantic decode rule of an attribute tag (the attribute registry).
Modelled from the spec: fixed-width 64-bit integers, 16-byte identifiers,
12-byte timestamps (u64 seconds + u32 nanoseconds), or variable-length
byte blobs. -/
inductive AttrRule where
  | fixed64
  | uuid16
  | timespec
  | blob
deriving DecidableEq

def AttrTag.rule : AttrTag → AttrRule
  | .uuid => .uuid16
  | .cloneUuid => .uuid16
  | .ctransid => .fixed64
  | .ino => .fixed64
  | .size => .fixed64
  | .mode => .fixed64
  | .uid => .fixed64
  | .gid => .fixed64
  | .rdev => .fixed64
  | .fileOffset => .fixed64
  | .cloneCtransid => .fixed64
  | .cloneOffset => .fixed64
  | .cloneLen => .fixed64
  | .ctime => .timespec
  | .mtime => .timespec
  | .atime => .timespec
  | .otime => .timespec
  | .xattrName => .blob
  | .xattrData => .blob
  | .path => .blob
  | .pathTo => .blob
  | .pathLink => .blob
  | .data => .blob
  | .clonePath => .blob

/-- A decoded attribute value: a fixed-width integer, a byte blob (paths,
names, payload data, 16-byte identifiers), or a raw timestamp pair. -/
inductive AttrVal where
  | num (n : Nat)
  | bytes (bs : List Nat)
  | time (secs nsecs : Nat)
deriving DecidableEq

/-- Decode one attribute value under its tag's registry rule; `none` means
the declared length is inconsistent with the tag's fixed-width rule
(`MalformedAttribute`). -/
def decodeAttrVal (t : AttrTag) (v : List Nat) : Option AttrVal :=
  match t.rule with
  | .fixed64 => if v.length = 8 then some (.num (fromLE v)) else none
  | .uuid16 => if v.length = 16 then some (.bytes v) else none
  | .timespec =>
    if v.length = 12 then some (.time (fromLE (v.take 8)) (fromLE (v.drop 8))) else none
  | .blob => some (.bytes v)

/-- Internal parse-failure kinds of the command framing layer.  Modelled
from the spec: these correspond to the spec's error taxonomy, but in the
source they are nom-internal errors that `Sendstream::parse_all` collapses
(see `Error` below, which has only the `trailingData` variant). -/
inductive ParseError where
  | headerMismatch
  | checksumMismatch
  | unknownCommandType
  | truncated
  | malformedAttribute (t : AttrTag)
  | missingRequiredAttribute (ct : CommandType) (t : AttrTag)
deriving DecidableEq

/-! ## TLV attribute decoder

Modelled from the spec: `src/wire/tlv.rs` is declared by `src/wire/mod.rs`
but missing from the sources.  The payload is a sequence of
`tag:u16-LE ∥ len:u16-LE ∥ value[len]` records filling the payload exactly;
a dangling partial record is a fatal decode failure, an unregistered tag is
skipped, and duplicate tags are resolved last-write-wins. -/

def parseAttrs : List Nat → Except ParseError (List (AttrTag × AttrVal))
  | [] => .ok []
  | t1 :: t2 :: l1 :: l2 :: rest =>
    let len := fromLE [l1, l2]
    if h : len ≤ rest.length then
      let v := rest.take len
      match AttrTag.fromCode (fromLE [t1, t2]) with
      | none => parseAttrs (rest.drop len)
      | some tg =>
        match decodeAttrVal tg v with
        | none => .error (.malformedAttribute tg)
        | some val =>
          match parseAttrs (rest.drop len) with
          | .error e => .error e
          | .ok attrs => .ok ((tg, val) :: attrs)
    else .error .truncated
  | _ => .error .truncated
termination_by l => l.length
decreasing_by
  all_goals simp [List.length_drop]; omega

/-- Last-write-wins lookup in the decoded attribute mapping. -/
def lookupLast (t : AttrTag) : List (AttrTag × AttrVal) → Option AttrVal
  | [] => none
  | (t', v) :: rest =>
    match lookupLast t rest with
    | some v' => some v'
    | none => if t' = t then some v else none

/-! ## Command builder

Modelled from the spec: given a command-type tag and the decoded attribute
mapping, validate the required-attribute schema and construct the typed
command record; a missing or wrongly-shaped required attribute is a fatal
decode failure naming the command type and the slot. -/

def getNum (ct : CommandType) (t : AttrTag) (attrs : List (AttrTag × AttrVal)) :
    Except ParseError Nat :=
  match lookupLast t attrs with
  | some (.num n) => .ok n
  | _ => .error (.missingRequiredAttribute ct t)

def getBytes (ct : CommandType) (t : AttrTag) (attrs : List (AttrTag × AttrVal)) :
    Except ParseError (List Nat) :=
  match lookupLast t attrs with
  | some (.bytes bs) => .ok bs
  | _ => .error (.missingRequiredAttribute ct t)

/-- Build a `SystemTime` from raw seconds and nanoseconds
(`Duration::new` carries surplus nanoseconds into the seconds). -/
def mkTime (s ns : Nat) : Time :=
  ⟨s + ns / 1000000000, ns % 1000000000⟩

def getTime (ct : CommandType) (t : AttrTag) (attrs : List (AttrTag × AttrVal)) :
    Except ParseError Time :=
  match lookupLast t attrs with
  | some (.time s ns) => .ok (mkTime s ns)
  | _ => .error (.missingRequiredAttribute ct t)

def buildCommand (ct : CommandType) (attrs : List (AttrTag × AttrVal)) :
    Except ParseError Command :=
  match ct with
  | .subvol => do
    let path ← getBytes ct .path attrs
    let uuid ← getBytes ct .uuid attrs
    let ctransid ← getNum ct .ctransid attrs
    return .subvol ⟨path, uuid, ctransid⟩
  | .snapshot => do
    let path ← getBytes ct .path attrs
    let uuid ← getBytes ct .uuid attrs
    let ctransid ← getNum ct .ctransid attrs
    let clone_uuid ← getBytes ct .cloneUuid attrs
    let clone_ctransid ← getNum ct .cloneCtransid attrs
    return .snapshot ⟨path, uuid, ctransid, clone_uuid, clone_ctransid⟩
  | .mkfile => do
    let path ← getBytes ct .path attrs
    let ino ← getNum ct .ino attrs
    return .mkfile ⟨⟨path⟩, ino⟩
  | .mkdir => do
    let path ← getBytes ct .path attrs
    let ino ← getNum ct .ino attrs
    return .mkdir ⟨⟨path⟩, ino⟩
  | .mknod => do
    let path ← getBytes ct .path attrs
    let ino ← getNum ct .ino attrs
    let rdev ← getNum ct .rdev attrs
    let mode ← getNum ct .mode attrs
    return .mknod ⟨⟨path⟩, ino, rdev, mode % 2 ^ 32⟩
  | .mkfifo => do
    let path ← getBytes ct .path attrs
    let ino ← getNum ct .ino attrs
    let rdev ← getNum ct .rdev attrs
    let mode ← getNum ct .mode attrs
    return .mkfifo ⟨⟨path⟩, ino, rdev, mode % 2 ^ 32⟩
  | .mksock => do
    let path ← getBytes ct .path attrs
    let ino ← getNum ct .ino attrs
    let rdev ← getNum ct .rdev attrs
    let mode ← getNum ct .mode attrs
    return .mksock ⟨⟨path⟩, ino, rdev, mode % 2 ^ 32⟩
  | .symlink => do
    let link_name ← getBytes ct .path attrs
    let ino ← getNum ct .ino attrs
    let target ← getBytes ct .pathLink attrs
    return .symlink ⟨link_name, ino, target⟩
  | .rename => do
    let from_ ← getBytes ct .path attrs
    let to_ ← getBytes ct .pathTo attrs
    return .rename ⟨from_, to_⟩
  | .link => do
    let link_name ← getBytes ct .path attrs
    let target ← getBytes ct .pathLink attrs
    return .link ⟨link_name, target⟩
  | .unlink => do
    let path ← getBytes ct .path attrs
    return .unlink ⟨path⟩
  | .rmdir => do
    let path ← getBytes ct .path attrs
    return .rmdir ⟨path⟩
  | .setXattr => do
    let path ← getBytes ct .path attrs
    let name ← getBytes ct .xattrName attrs
    let data ← getBytes ct .xattrData attrs
    return .setXattr ⟨path, name, data⟩
  | .removeXattr => do
    let path ← getBytes ct .path attrs
    let name ← getBytes ct .xattrName attrs
    return .removeXattr ⟨path, name⟩
  | .write => do
    let path ← getBytes ct .path attrs
    let offset ← getNum ct .fileOffset attrs
    let data ← getBytes ct .data attrs
    return .write ⟨path, offset, data⟩
  | .clone => do
    let src_offset ← getNum ct .cloneOffset attrs
    let len ← getNum ct .cloneLen attrs
    let src_path ← getBytes ct .clonePath attrs
    let uuid ← getBytes ct .cloneUuid attrs
    let ctransid ← getNum ct .cloneCtransid attrs
    let dst_path ← getBytes ct .path attrs
    let dst_offset ← getNum ct .fileOffset attrs
    return .clone ⟨src_offset, len, src_path, uuid, ctransid, dst_path, dst_offset⟩
  | .truncate => do
    let path ← getBytes ct .path attrs
    let size ← getNum ct .size attrs
    return .truncate ⟨path, size⟩
  | .chmod => do
    let path ← getBytes ct .path attrs
    let mode ← getNum ct .mode attrs
    return .chmod ⟨path, mode % 2 ^ 32⟩
  | .chown => do
    let path ← getBytes ct .path attrs
    let uid ← getNum ct .uid attrs
    let gid ← getNum ct .gid attrs
    return .chown ⟨path, uid % 2 ^ 32, gid % 2 ^ 32⟩
  | .utimes => do
    let path ← getBytes ct .path attrs
    let atime ← getTime ct .atime attrs
    let mtime ← getTime ct .mtime attrs
    let ctime ← getTime ct .ctime attrs
    return .utimes ⟨path, atime, mtime, ctime⟩
  | .end_ => .ok .end_
  | .updateExtent => do
    let path ← getBytes ct .path attrs
    let offset ← getNum ct .fileOffset attrs
    let len ← getNum ct .size attrs
    return .updateExtent ⟨path, offset, len⟩

/-! ## Parser result types

A nom parser either succeeds with the unconsumed rest and a value, fails
with a typed parse error, or panics (`assert_eq!` / `.expect`), which in
Rust aborts the whole call; `panic` propagates through every combinator. -/

inductive PResult (α : Type) where
  | ok (rest : List Nat) (val : α)
  | err (e : ParseError)
  | panic
deriving DecidableEq

/-- The public error enum of `src/lib.rs`: it has exactly one variant,
`TrailingData` (the commented-out granular `Parse` variant is marked TODO
in the source). -/
inductive Error where
  | trailingData (bs : List Nat)
deriving DecidableEq

/-- Outcome of the public entry point: `Ok`, `Err`, or a Rust panic. -/
inductive POutcome (α : Type) where
  | ok (val : α)
  | err (e : Error)
  | panic
deriving DecidableEq

/-! ## Command framer

Modelled from the spec: `src/wire/cmd.rs` is declared by `src/wire/mod.rs`
but missing from the sources.  One command is
`payload_len:u32-LE ∥ cmd_type:u16-LE ∥ crc32:u32-LE ∥ payload[payload_len]`;
the checksum is computed over the header with the crc32 field zeroed,
concatenated with the payload. -/

def Command.parse : List Nat → PResult Command
  | b0 :: b1 :: b2 :: b3 :: b4 :: b5 :: b6 :: b7 :: b8 :: b9 :: rest =>
    let payloadLen := fromLE [b0, b1, b2, b3]
    let crcStored := fromLE [b6, b7, b8, b9]
    match CommandType.fromCode (fromLE [b4, b5]) with
    | none => .err .unknownCommandType
    | some ct =>
      if payloadLen ≤ rest.length then
        let payload := rest.take payloadLen
        if crc32 ([b0, b1, b2, b3, b4, b5] ++ [0, 0, 0, 0] ++ payload) = crcStored then
          match parseAttrs payload with
          | .error e => .err e
          | .ok attrs =>
            match buildCommand ct attrs with
            | .error e => .err e
            | .ok c => .ok (rest.drop payloadLen) c
        else .err .checksumMismatch
      else .err .truncated
  | _ => .err .truncated

theorem Command.parse_length_lt {input rest : List Nat} {c : Command}
    (h : Command.parse input = .ok rest c) : rest.length < input.length := by
  match input with
  | [] | [_] | [_, _] | [_, _, _] | [_, _, _, _] | [_, _, _, _, _]
  | [_, _, _, _, _, _] | [_, _, _, _, _, _, _] | [_, _, _, _, _, _, _, _]
  | [_, _, _, _, _, _, _, _, _] =>
    simp [Command.parse] at h
  | b0 :: b1 :: b2 :: b3 :: b4 :: b5 :: b6 :: b7 :: b8 :: b9 :: r3 =>
    simp only [Command.parse] at h
    split at h
    · exact absurd h (by simp)
    · split at h
      · split at h
        · split at h
          · exact absurd h (by simp)
          · split at h
            · exact absurd h (by simp)
            · rw [PResult.ok.injEq] at h
              have := h.1
              simp [← this, List.length_drop]
              omega
        · exact absurd h (by simp)
      · exact absurd h (by simp)

/-- The tail of `nom::multi::many1`: parse commands until the sub-parser
fails; a panic inside an iteration propagates. -/
def many0Cmds (input : List Nat) : PResult (List Command) :=
  match h : Command.parse input with
  | .err _ => .ok input []
  | .panic => .panic
  | .ok rest c =>
    match many0Cmds rest with
    | .panic => .panic
    | .err e => .err e
    | .ok rest' cs => .ok rest' (c :: cs)
termination_by input.length
decreasing_by exact Command.parse_length_lt h

/-- `nom::multi::many1(Command::parse)`: at least one command, then greedily
as many as parse. -/
def many1Cmds (input : List Nat) : PResult (List Command) :=
  match Command.parse input with
  | .err e => .err e
  | .panic => .panic
  | .ok rest c =>
    match many0Cmds rest with
    | .panic => .panic
    | .err e => .err e
    | .ok rest' cs => .ok rest' (c :: cs)

/-! ## Stream framer (`src/wire/mod.rs`, present in the sources) -/

/-- The fixed 13-byte magic header `b"btrfs-stream\0"`. -/
def MAGIC : List Nat := [98, 116, 114, 102, 115, 45, 115, 116, 114, 101, 97, 109, 0]

/-- `Sendstream::parse`: strip the magic header, read the little-endian u32
version, `assert_eq!(1, version)` (a Rust panic when the version differs),
then `many1(Command::parse)`. -/
def Sendstream.parse (input : List Nat) : PResult Sendstream :=
  if input.take 13 = MAGIC then
    match readU32 (input.drop 13) with
    | none => .err .truncated
    | some (version, rest) =>
      if version = 1 then
        match many1Cmds rest with
        | .err e => .err e
        | .panic => .panic
        | .ok rest' cmds => .ok rest' ⟨cmds⟩
      else .panic
  else .err .headerMismatch

theorem many0Cmds_err {input : List Nat} {e : ParseError}
    (hp : Command.parse input = .err e) : many0Cmds input = .ok input [] := by
  rw [many0Cmds]
  split <;> simp_all

theorem many0Cmds_panic {input : List Nat}
    (hp : Command.parse input = .panic) : many0Cmds input = .panic := by
  rw [many0Cmds]
  split <;> simp_all

theorem many0Cmds_ok {input r : List Nat} {c : Command}
    (hp : Command.parse input = .ok r c) :
    many0Cmds input =
      match many0Cmds r with
      | .panic => .panic
      | .err e => .err e
      | .ok rest cs => .ok rest (c :: cs) := by
  rw [many0Cmds]
  split <;> simp_all

theorem many0Cmds_length_le (input : List Nat) :
    ∀ rest cs, many0Cmds input = .ok rest cs → rest.length ≤ input.length := by
  induction input using many0Cmds.induct with
  | case1 x e hp =>
    intro rest cs h
    rw [many0Cmds_err hp] at h
    cases h
    exact Nat.le_refl _
  | case2 x hp =>
    intro rest cs h
    rw [many0Cmds_panic hp] at h
    exact absurd h (by simp)
  | case3 x r c hp hm ih =>
    intro rest cs h
    rw [many0Cmds_ok hp, hm] at h
    exact absurd h (by simp)
  | case4 x r c hp e hm ih =>
    intro rest cs h
    rw [many0Cmds_ok hp, hm] at h
    exact absurd h (by simp)
  | case5 x r c hp r2 cs2 hm ih =>
    intro rest cs h
    rw [many0Cmds_ok hp, hm] at h
    rw [PResult.ok.injEq] at h
    obtain ⟨h3, h4⟩ := h
    subst h3
    have h1 := ih r2 cs2 hm
    have h2 := Command.parse_length_lt hp
    omega

theorem readU16_length {l r : List Nat} {n : Nat}
    (h : readU16 l = some (n, r)) : l.length = r.length + 2 := by
  match l with
  | [] | [_] => simp [readU16] at h
  | a :: b :: r' =>
    simp [readU16] at h
    obtain ⟨-, h2⟩ := h
    subst h2
    simp

theorem readU32_length {l r : List Nat} {n : Nat}
    (h : readU32 l = some (n, r)) : l.length = r.length + 4 := by
  match l with
  | [] | [_] | [_, _] | [_, _, _] => simp [readU32] at h
  | a :: b :: c :: d :: r' =>
    simp [readU32] at h
    obtain ⟨-, h2⟩ := h
    subst h2
    simp

theorem Sendstream.parse_consumes {input rest : List Nat} {s : Sendstream}
    (h : Sendstream.parse input = .ok rest s) : rest.length < input.length := by
  unfold Sendstream.parse at h
  split at h
  case isFalse => exact absurd h (by simp)
  case isTrue hm =>
    have h13 : 13 ≤ input.length := by
      have := congrArg List.length hm
      simp [MAGIC] at this
      omega
    split at h
    next => exact absurd h (by simp)
    next version rest1 hu =>
      have hr1 : rest1.length + 4 = input.length - 13 := by
        have := readU32_length hu
        simp [List.length_drop] at this
        omega
      split at h
      case isFalse => exact absurd h (by simp)
      case isTrue =>
        split at h
        next => exact absurd h (by simp)
        next => exact absurd h (by simp)
        next r2 cmds hp =>
          rw [PResult.ok.injEq] at h
          have h4 : r2.length = rest.length := by rw [h.1]
          unfold many1Cmds at hp
          split at hp
          next => exact absurd hp (by simp)
          next => exact absurd hp (by simp)
          next r3 c hcp =>
            split at hp
            next => exact absurd hp (by simp)
            next => exact absurd hp (by simp)
            next r4 cs hm0 =>
              rw [PResult.ok.injEq] at hp
              have h5 : r4.length = r2.length := by rw [hp.1]
              have h1 := Command.parse_length_lt hcp
              have h2 := many0Cmds_length_le r3 r4 cs hm0
              omega

/-- The tail of `nom::multi::many1(Sendstream::parse)`. -/
def many0Streams (input : List Nat) : PResult (List Sendstream) :=
  match h : Sendstream.parse input with
  | .err _ => .ok input []
  | .panic => .panic
  | .ok rest s =>
    match many0Streams rest with
    | .panic => .panic
    | .err e => .err e
    | .ok rest' ss => .ok rest' (s :: ss)
termination_by input.length
decreasing_by exact Sendstream.parse_consumes h

/-- `nom::combinator::complete(nom::multi::many1(Sendstream::parse))`. -/
def many1Streams (input : List Nat) : PResult (List Sendstream) :=
  match Sendstream.parse input with
  | .err e => .err e
  | .panic => .panic
  | .ok rest s =>
    match many0Streams rest with
    | .panic => .panic
    | .err e => .err e
    | .ok rest' ss => .ok rest' (s :: ss)

/-- `Sendstream::parse_all`: run `complete(many1(Sendstream::parse))`,
`.expect("todo")` its result (a Rust panic on any parse error), then fail
with `TrailingData` when unconsumed bytes remain. -/
def Sendstream.parse_all (input : List Nat) : POutcome (List Sendstream) :=
  match many1Streams input with
  | .panic => .panic
  | .err _ => .panic
  | .ok left streams =>
    if left = [] then .ok streams else .err (.trailingData left)

theorem many0Streams_err {input : List Nat} {e : ParseError}
    (hp : Sendstream.parse input = .err e) : many0Streams input = .ok input [] := by
  rw [many0Streams]
  split <;> simp_all

theorem many0Streams_panic {input : List Nat}
    (hp : Sendstream.parse input = .panic) : many0Streams input = .panic := by
  rw [many0Streams]
  split <;> simp_all

theorem many0Streams_ok {input r : List Nat} {s : Sendstream}
    (hp : Sendstream.parse input = .ok r s) :
    many0Streams input =
      match many0Streams r with
      | .panic => .panic
      | .err e => .err e
      | .ok rest ss => .ok rest (s :: ss) := by
  rw [many0Streams]
  split <;> simp_all

/-! ## Wire encoder

Modelled from the spec: the crate has no encoder, but §6 of the
specification fixes the wire format bit-exactly
(`MAGIC ∥ version:u32-LE ∥ command*`, each command
`payload_len:u32-LE ∥ cmd_type:u16-LE ∥ crc32:u32-LE ∥ payload`, each
attribute `tag:u16-LE ∥ len:u16-LE ∥ value`), which this encoder follows;
it is the reference encoding for the round-trip property. -/

/-- Concatenate a list of byte lists. -/
def flat : List (List Nat) → List Nat
  | [] => []
  | x :: xs => x ++ flat xs

def encodeVal : AttrVal → List Nat
  | .num n => leBytes 8 n
  | .bytes bs => bs
  | .time s ns => leBytes 8 s ++ leBytes 4 ns

def encodeAttr (t : AttrTag) (v : AttrVal) : List Nat :=
  leBytes 2 t.code ++ leBytes 2 (encodeVal v).length ++ encodeVal v

/-- Wire command type of a command value (`Command::command_type` of
`src/lib.rs`). -/
def Command.commandType : Command → CommandType
  | .chmod _ => .chmod
  | .chown _ => .chown
  | .clone _ => .clone
  | .end_ => .end_
  | .link _ => .link
  | .mkdir _ => .mkdir
  | .mkfifo _ => .mkfifo
  | .mkfile _ => .mkfile
  | .mknod _ => .mknod
  | .mksock _ => .mksock
  | .removeXattr _ => .removeXattr
  | .rename _ => .rename
  | .rmdir _ => .rmdir
  | .setXattr _ => .setXattr
  | .snapshot _ => .snapshot
  | .subvol _ => .subvol
  | .symlink _ => .symlink
  | .truncate _ => .truncate
  | .unlink _ => .unlink
  | .updateExtent _ => .updateExtent
  | .utimes _ => .utimes
  | .write _ => .write

/-- Canonical attribute list of a command value: exactly the attributes the
command's schema declares required, in registry order of the builder. -/
def Command.attrs : Command → List (AttrTag × AttrVal)
  | .chmod c => [(.path, .bytes c.path), (.mode, .num c.mode)]
  | .chown c => [(.path, .bytes c.path), (.uid, .num c.uid), (.gid, .num c.gid)]
  | .clone c =>
    [(.cloneOffset, .num c.src_offset), (.cloneLen, .num c.len),
     (.clonePath, .bytes c.src_path), (.cloneUuid, .bytes c.uuid),
     (.cloneCtransid, .num c.ctransid), (.path, .bytes c.dst_path),
     (.fileOffset, .num c.dst_offset)]
  | .end_ => []
  | .link c => [(.path, .bytes c.link_name), (.pathLink, .bytes c.target)]
  | .mkdir c => [(.path, .bytes c.path.path), (.ino, .num c.ino)]
  | .mkfifo c =>
    [(.path, .bytes c.path.path), (.ino, .num c.ino), (.rdev, .num c.rdev),
     (.mode, .num c.mode)]
  | .mkfile c => [(.path, .bytes c.path.path), (.ino, .num c.ino)]
  | .mknod c =>
    [(.path, .bytes c.path.path), (.ino, .num c.ino), (.rdev, .num c.rdev),
     (.mode, .num c.mode)]
  | .mksock c =>
    [(.path, .bytes c.path.path), (.ino, .num c.ino), (.rdev, .num c.rdev),
     (.mode, .num c.mode)]
  | .removeXattr c => [(.path, .bytes c.path), (.xattrName, .bytes c.name)]
  | .rename c => [(.path, .bytes c.from_), (.pathTo, .bytes c.to_)]
  | .rmdir c => [(.path, .bytes c.path)]
  | .setXattr c =>
    [(.path, .bytes c.path), (.xattrName, .bytes c.name), (.xattrData, .bytes c.data)]
  | .snapshot c =>
    [(.path, .bytes c.path), (.uuid, .bytes c.uuid), (.ctransid, .num c.ctransid),
     (.cloneUuid, .bytes c.clone_uuid), (.cloneCtransid, .num c.clone_ctransid)]
  | .subvol c => [(.path, .bytes c.path), (.uuid, .bytes c.uuid), (.ctransid, .num c.ctransid)]
  | .symlink c =>
    [(.path, .bytes c.link_name), (.ino, .num c.ino), (.pathLink, .bytes c.target)]
  | .truncate c => [(.path, .bytes c.path), (.size, .num c.size)]
  | .unlink c => [(.path, .bytes c.path)]
  | .updateExtent c =>
    [(.path, .bytes c.path), (.fileOffset, .num c.offset), (.size, .num c.len)]
  | .utimes c =>
    [(.path, .bytes c.path), (.atime, .time c.atime.secs c.atime.nsecs),
     (.mtime, .time c.mtime.secs c.mtime.nsecs), (.ctime, .time c.ctime.secs c.ctime.nsecs)]
  | .write c =>
    [(.path, .bytes c.path), (.fileOffset, .num c.offset), (.data, .bytes c.data)]

/-- Encode one command: header (payload length, type code, crc32 computed
over the header with a zeroed crc field plus the payload) then payload. -/
def encodeCmd (c : Command) : List Nat :=
  let payload := flat ((c.attrs).map fun p => encodeAttr p.1 p.2)
  let hdr6 := leBytes 4 payload.length ++ leBytes 2 c.commandType.code
  hdr6 ++ leBytes 4 (crc32 (hdr6 ++ [0, 0, 0, 0] ++ payload)) ++ payload

/-- Encode one stream: magic header, version 1, the encoded commands. -/
def encodeStream (s : Sendstream) : List Nat :=
  MAGIC ++ leBytes 4 1 ++ flat (s.commands.map encodeCmd)

/-! ## Validity of in-memory values for encoding

A `Command` value is valid when each field fits the wire representation its
attribute uses: byte fields shorter than 2^16 (the TLV length is a u16),
identifiers exactly 16 bytes, 64-bit integers below 2^64, u32-backed
scalars (mode, uid, gid) below 2^32, and normalised timestamps. -/

def validBlob (bs : List Nat) : Bool := bs.length < 65536

def validU64 (n : Nat) : Bool := n < 2 ^ 64

def validU32 (n : Nat) : Bool := n < 2 ^ 32

def validUuid (u : List Nat) : Bool := u.length = 16

def validTime (t : Time) : Bool := t.secs < 2 ^ 64 && t.nsecs < 1000000000

def validCmd : Command → Bool
  | .chmod c => validBlob c.path && validU32 c.mode
  | .chown c => validBlob c.path && validU32 c.uid && validU32 c.gid
  | .clone c =>
    validU64 c.src_offset && validU64 c.len && validBlob c.src_path &&
    validUuid c.uuid && validU64 c.ctransid && validBlob c.dst_path &&
    validU64 c.dst_offset
  | .end_ => true
  | .link c => validBlob c.link_name && validBlob c.target
  | .mkdir c => validBlob c.path.path && validU64 c.ino
  | .mkfifo c => validBlob c.path.path && validU64 c.ino && validU64 c.rdev && validU32 c.mode
  | .mkfile c => validBlob c.path.path && validU64 c.ino
  | .mknod c => validBlob c.path.path && validU64 c.ino && validU64 c.rdev && validU32 c.mode
  | .mksock c => validBlob c.path.path && validU64 c.ino && validU64 c.rdev && validU32 c.mode
  | .removeXattr c => validBlob c.path && validBlob c.name
  | .rename c => validBlob c.from_ && validBlob c.to_
  | .rmdir c => validBlob c.path
  | .setXattr c => validBlob c.path && validBlob c.name && validBlob c.data
  | .snapshot c =>
    validBlob c.path && validUuid c.uuid && validU64 c.ctransid &&
    validUuid c.clone_uuid && validU64 c.clone_ctransid
  | .subvol c => validBlob c.path && validUuid c.uuid && validU64 c.ctransid
  | .symlink c => validBlob c.link_name && validU64 c.ino && validBlob c.target
  | .truncate c => validBlob c.path && validU64 c.size
  | .unlink c => validBlob c.path
  | .updateExtent c => validBlob c.path && validU64 c.offset && validU64 c.len
  | .utimes c =>
    validBlob c.path && validTime c.atime && validTime c.mtime && validTime c.ctime
  | .write c => validBlob c.path && validU64 c.offset && validBlob c.data

def validStream (s : Sendstream) : Bool :=
  !s.commands.isEmpty && s.commands.all validCmd

/-! ## Basic byte-level lemmas -/

theorem leBytes_length (k n : Nat) : (leBytes k n).length = k := by
  induction k generalizing n with
  | zero => rfl
  | succ k ih => simp [leBytes, ih]

theorem fromLE_leBytes (k n : Nat) : fromLE (leBytes k n) = n % 256 ^ k := by
  induction k generalizing n with
  | zero => simp [leBytes, fromLE, Nat.mod_one]
  | succ k ih =>
    rw [leBytes, fromLE, ih, pow_succ]
    rw [mul_comm (256 ^ k) 256, Nat.mod_mul]

theorem readU16_leBytes {n : Nat} (h : n < 2 ^ 16) (r : List Nat) :
    readU16 (leBytes 2 n ++ r) = some (n, r) := by
  have : fromLE [n % 256, n / 256 % 256] = n := by
    simp [fromLE]
    omega
  simp [leBytes, readU16, this]

theorem readU32_leBytes {n : Nat} (h : n < 2 ^ 32) (r : List Nat) :
    readU32 (leBytes 4 n ++ r) = some (n, r) := by
  have : fromLE [n % 256, n / 256 % 256, n / 256 / 256 % 256, n / 256 / 256 / 256 % 256] = n := by
    simp [fromLE]
    omega
  simp [leBytes, readU32, this]

theorem take13_magic_append (r : List Nat) : (MAGIC ++ r).take 13 = MAGIC :=
  List.take_left MAGIC r

theorem drop13_magic_append (r : List Nat) : (MAGIC ++ r).drop 13 = r :=
  List.drop_left MAGIC r

/-- Unfolding of the stream framer on a well-formed header. -/
theorem Sendstream.parse_magic_v1 (rest : List Nat) :
    Sendstream.parse (MAGIC ++ leBytes 4 1 ++ rest) =
      match many1Cmds rest with
      | .err e => .err e
      | .panic => .panic
      | .ok rest' cmds => .ok rest' ⟨cmds⟩ := by
  unfold Sendstream.parse
  rw [List.append_assoc, take13_magic_append, if_pos rfl, drop13_magic_append,
    readU32_leBytes (by norm_num)]
  rfl

/-- A command parse attempted at a stream boundary always fails: the bytes
at offsets 4-5 of the magic header decode to command-type code 11635, which
the closed registry rejects. -/
theorem Command.parse_magic_err (rest : List Nat) :
    Command.parse (MAGIC ++ rest) = .err .unknownCommandType := rfl

/-- A successfully parsed stream starts with the magic header. -/
theorem Sendstream.parse_ok_magic {input rest : List Nat} {s : Sendstream}
    (h : Sendstream.parse input = .ok rest s) : input.take 13 = MAGIC := by
  unfold Sendstream.parse at h
  split at h
  · assumption
  · exact absurd h (by simp)

/-- A stream-level parse error makes `parse_all` panic (`.expect("todo")`). -/
theorem parse_all_panic_of_err {input : List Nat} {e : ParseError}
    (hp : Sendstream.parse input = .err e) : Sendstream.parse_all input = .panic := by
  unfold Sendstream.parse_all many1Streams
  rw [hp]

/-- A stream-level panic propagates through `parse_all`. -/
theorem parse_all_panic_of_panic {input : List Nat}
    (hp : Sendstream.parse input = .panic) : Sendstream.parse_all input = .panic := by
  unfold Sendstream.parse_all many1Streams
  rw [hp]

/-- A successfully parsed stream has at least one command
(`nom::multi::many1`). -/
theorem Sendstream.parse_ok_commands_ne {input rest : List Nat} {s : Sendstream}
    (h : Sendstream.parse input = .ok rest s) : s.commands ≠ [] := by
  unfold Sendstream.parse at h
  split at h
  case isFalse => exact absurd h (by simp)
  case isTrue =>
    split at h
    next => exact absurd h (by simp)
    next version rest1 hu =>
      split at h
      case isFalse => exact absurd h (by simp)
      case isTrue =>
        split at h
        next => exact absurd h (by simp)
        next => exact absurd h (by simp)
        next r2 cmds hp =>
          rw [PResult.ok.injEq] at h
          rw [← h.2]
          unfold many1Cmds at hp
          split at hp
          next => exact absurd hp (by simp)
          next => exact absurd hp (by simp)
          next r3 c hcp =>
            split at hp
            next => exact absurd hp (by simp)
            next => exact absurd hp (by simp)
            next r4 cs hm0 =>
              rw [PResult.ok.injEq] at hp
              rw [← hp.2]
              simp

/-- Every stream produced by the many-streams loop has at least one
command. -/
theorem many0Streams_commands_ne (input : List Nat) :
    ∀ rest ss, many0Streams input = .ok rest ss → ∀ s ∈ ss, s.commands ≠ [] := by
  induction input using many0Streams.induct with
  | case1 x e hp =>
    intro rest ss h
    rw [many0Streams_err hp] at h
    rw [PResult.ok.injEq] at h
    rw [← h.2]
    simp
  | case2 x hp =>
    intro rest ss h
    rw [many0Streams_panic hp] at h
    exact absurd h (by simp)
  | case3 x r s hp hm ih =>
    intro rest ss h
    rw [many0Streams_ok hp, hm] at h
    exact absurd h (by simp)
  | case4 x r s hp e hm ih =>
    intro rest ss h
    rw [many0Streams_ok hp, hm] at h
    exact absurd h (by simp)
  | case5 x r s hp r2 ss2 hm ih =>
    intro rest ss h
    rw [many0Streams_ok hp, hm] at h
    rw [PResult.ok.injEq] at h
    rw [← h.2]
    intro s' hs'
    rcases List.mem_cons.mp hs' with h1 | h1
    · rw [h1]
      exact Sendstream.parse_ok_commands_ne hp
    · exact ih r2 ss2 hm s' h1

/-! ## Parser locality

A successful parse is determined by the consumed prefix: appending extra
bytes after the consumed region leaves the result unchanged with the extra
bytes appended to the rest.  These lemmas justify composing parses of
concatenated buffers. -/

theorem readU16_append {l r e : List Nat} {n : Nat}
    (h : readU16 l = some (n, r)) : readU16 (l ++ e) = some (n, r ++ e) := by
  match l with
  | [] | [_] => simp [readU16] at h
  | a :: b :: rest =>
    simp [readU16] at h ⊢
    exact ⟨h.1, by rw [h.2]⟩

theorem readU32_append {l r e : List Nat} {n : Nat}
    (h : readU32 l = some (n, r)) : readU32 (l ++ e) = some (n, r ++ e) := by
  match l with
  | [] | [_] | [_, _] | [_, _, _] => simp [readU32] at h
  | a :: b :: c :: d :: rest =>
    simp [readU32] at h ⊢
    exact ⟨h.1, by rw [h.2]⟩

theorem Command.parse_append {u r e : List Nat} {c : Command}
    (h : Command.parse u = .ok r c) :
    Command.parse (u ++ e) = .ok (r ++ e) c := by
  match u with
  | [] | [_] | [_, _] | [_, _, _] | [_, _, _, _] | [_, _, _, _, _]
  | [_, _, _, _, _, _] | [_, _, _, _, _, _, _] | [_, _, _, _, _, _, _, _]
  | [_, _, _, _, _, _, _, _, _] =>
    simp [Command.parse] at h
  | b0 :: b1 :: b2 :: b3 :: b4 :: b5 :: b6 :: b7 :: b8 :: b9 :: r3 =>
    simp only [Command.parse, List.cons_append] at h ⊢
    split at h
    · exact absurd h (by simp)
    next ct hct =>
      split at h
      case isFalse => exact absurd h (by simp)
      case isTrue hle =>
        rw [List.take_append_of_le_length hle, List.drop_append_of_le_length hle]
        have hle2 : fromLE [b0, b1, b2, b3] ≤ (r3 ++ e).length := by
          simp
          omega
        rw [if_pos hle2]
        split at h
        case isFalse hcrc =>
          exact absurd h (by simp)
        case isTrue hcrc =>
          rw [if_pos hcrc]
          split at h
          next ea hpa =>
            exact absurd h (by simp)
          next attrs hpa =>
            split at h
            next eb hb => exact absurd h (by simp)
            next c2 hb =>
              rw [PResult.ok.injEq] at h ⊢
              exact ⟨by rw [← h.1], h.2⟩

theorem many1Cmds_shape {input r r2 : List Nat} {c : Command} {cs : List Command}
    (hp : Command.parse input = .ok r c) (hm : many0Cmds r = .ok r2 cs) :
    many1Cmds input = .ok r2 (c :: cs) := by
  unfold many1Cmds
  rw [hp]
  simp [hm]

theorem many0Cmds_append (u : List Nat) :
    ∀ cs, many0Cmds u = .ok [] cs →
      ∀ e er, Command.parse e = .err er → many0Cmds (u ++ e) = .ok e cs := by
  induction u using many0Cmds.induct with
  | case1 x e0 hp =>
    intro cs h e er he
    rw [many0Cmds_err hp] at h
    rw [PResult.ok.injEq] at h
    obtain ⟨h1, h2⟩ := h
    subst h1
    rw [List.nil_append, ← h2]
    exact many0Cmds_err he
  | case2 x hp =>
    intro cs h e er he
    rw [many0Cmds_panic hp] at h
    exact absurd h (by simp)
  | case3 x r c hp hm ih =>
    intro cs h e er he
    rw [many0Cmds_ok hp, hm] at h
    exact absurd h (by simp)
  | case4 x r c hp e0 hm ih =>
    intro cs h e er he
    rw [many0Cmds_ok hp, hm] at h
    exact absurd h (by simp)
  | case5 x r c hp r2 cs2 hm ih =>
    intro cs h e er he
    rw [many0Cmds_ok hp, hm] at h
    rw [PResult.ok.injEq] at h
    obtain ⟨h1, h2⟩ := h
    subst h1
    rw [many0Cmds_ok (Command.parse_append hp), ih cs2 hm e er he, ← h2]

/-- Unfolding of the stream framer once the magic and version checks are
known to pass. -/
theorem Sendstream.parse_unfold {b rest : List Nat} (hm : b.take 13 = MAGIC)
    (hu : readU32 (b.drop 13) = some (1, rest)) :
    Sendstream.parse b =
      match many1Cmds rest with
      | .err e => .err e
      | .panic => .panic
      | .ok rest' cmds => .ok rest' ⟨cmds⟩ := by
  unfold Sendstream.parse
  rw [hm, if_pos rfl, hu]
  rfl

theorem Sendstream.parse_extend {b e : List Nat} {s : Sendstream} {er : ParseError}
    (h : Sendstream.parse b = .ok [] s) (he : Command.parse e = .err er) :
    Sendstream.parse (b ++ e) = .ok e s := by
  have hmagic := Sendstream.parse_ok_magic h
  have h13 : 13 ≤ b.length := by
    have := congrArg List.length hmagic
    simp [MAGIC] at this
    omega
  unfold Sendstream.parse at h
  rw [hmagic, if_pos rfl] at h
  split at h
  next => exact absurd h (by simp)
  next version rest1 hu =>
    split at h
    case isFalse => exact absurd h (by simp)
    case isTrue hv =>
      subst hv
      split at h
      next => exact absurd h (by simp)
      next => exact absurd h (by simp)
      next r2 cmds hp =>
        rw [PResult.ok.injEq] at h
        obtain ⟨h1, h2⟩ := h
        have hm2 : (b ++ e).take 13 = MAGIC := by
          rw [List.take_append_of_le_length h13, hmagic]
        have hu2 : readU32 ((b ++ e).drop 13) = some (1, rest1 ++ e) := by
          rw [List.drop_append_of_le_length h13]
          exact readU32_append hu
        rw [Sendstream.parse_unfold hm2 hu2]
        unfold many1Cmds at hp
        split at hp
        next => exact absurd hp (by simp)
        next => exact absurd hp (by simp)
        next r3 c hcp =>
          split at hp
          next => exact absurd hp (by simp)
          next => exact absurd hp (by simp)
          next r4 cs hm0 =>
            rw [PResult.ok.injEq] at hp
            obtain ⟨h3, h4⟩ := hp
            have hr4 : r4 = [] := by rw [h3, ← h1]
            rw [many1Cmds_shape (Command.parse_append hcp)
              (many0Cmds_append r3 cs (by rw [← hr4]; exact hm0) e er he)]
            rw [← h2, h4]

/-! ## Round-trip machinery: the decoder inverts the reference encoder -/

theorem AttrTag.fromCode_code (t : AttrTag) : AttrTag.fromCode t.code = some t := by
  cases t <;> rfl

theorem AttrTag.code_lt (t : AttrTag) : t.code < 2 ^ 16 := by
  cases t <;> simp [AttrTag.code]

theorem CommandType.fromCode_inv (ct : CommandType) :
    CommandType.fromCode ct.code = some ct := by
  cases ct <;> rfl

theorem CommandType.code_bound (ct : CommandType) : ct.code < 2 ^ 16 := by
  cases ct <;> simp [CommandType.code]

theorem crc32Round_lt {c : Nat} (h : c < 2 ^ 32) : crc32Round c < 2 ^ 32 := by
  unfold crc32Round
  split
  · exact Nat.xor_lt_two_pow (by omega) (by norm_num)
  · omega

theorem crc32Byte_lt {c : Nat} (b : Nat) (h : c < 2 ^ 32) : crc32Byte c b < 2 ^ 32 := by
  unfold crc32Byte
  have h0 : c ^^^ b % 256 < 2 ^ 32 := Nat.xor_lt_two_pow h (by omega)
  exact crc32Round_lt (crc32Round_lt (crc32Round_lt (crc32Round_lt
    (crc32Round_lt (crc32Round_lt (crc32Round_lt (crc32Round_lt h0)))))))

theorem crc32_lt (bs : List Nat) : crc32 bs < 2 ^ 32 := by
  unfold crc32
  have : ∀ c, c < 2 ^ 32 → bs.foldl crc32Byte c < 2 ^ 32 := by
    induction bs with
    | nil => intro c hc; exact hc
    | cons b rest ih =>
      intro c hc
      exact ih _ (crc32Byte_lt b hc)
  exact Nat.xor_lt_two_pow (this _ (by norm_num)) (by norm_num)

theorem fromLE_two {n : Nat} (h : n < 2 ^ 16) : fromLE [n % 256, n / 256 % 256] = n := by
  simp [fromLE]
  omega

theorem decodeAttrVal_encode_num {t : AttrTag} {n : Nat}
    (ht : t.rule = .fixed64) (hn : n < 2 ^ 64) :
    decodeAttrVal t (encodeVal (.num n)) = some (.num n) := by
  simp [decodeAttrVal, ht, encodeVal, leBytes_length, fromLE_leBytes]
  omega

theorem decodeAttrVal_encode_uuid {t : AttrTag} {bs : List Nat}
    (ht : t.rule = .uuid16) (hb : bs.length = 16) :
    decodeAttrVal t (encodeVal (.bytes bs)) = some (.bytes bs) := by
  simp [decodeAttrVal, ht, encodeVal, hb]

theorem decodeAttrVal_encode_blob {t : AttrTag} {bs : List Nat}
    (ht : t.rule = .blob) :
    decodeAttrVal t (encodeVal (.bytes bs)) = some (.bytes bs) := by
  simp [decodeAttrVal, ht, encodeVal]

theorem decodeAttrVal_encode_time {t : AttrTag} {s ns : Nat}
    (ht : t.rule = .timespec) (hs : s < 2 ^ 64) (hns : ns < 2 ^ 32) :
    decodeAttrVal t (encodeVal (.time s ns)) = some (.time s ns) := by
  have hlen8 : (leBytes 8 s).length = 8 := leBytes_length 8 s
  have h1 : (leBytes 8 s ++ leBytes 4 ns).take 8 = leBytes 8 s := by
    rw [← hlen8]
    exact List.take_left _ _
  have h2 : (leBytes 8 s ++ leBytes 4 ns).drop 8 = leBytes 4 ns := by
    rw [← hlen8]
    exact List.drop_left _ _
  simp [decodeAttrVal, ht, encodeVal, leBytes_length, h1, h2, fromLE_leBytes]
  constructor <;> omega

theorem parseAttrs_nil : parseAttrs [] = .ok [] := by
  rw [parseAttrs]

/-- One encoded attribute at the front of a payload decodes to its
tag-value pair followed by the decoded tail. -/
theorem parseAttrs_encodeAttr_cons {t : AttrTag} {v : AttrVal} {rest : List Nat}
    (hd : decodeAttrVal t (encodeVal v) = some v)
    (hl : (encodeVal v).length < 65536) :
    parseAttrs (encodeAttr t v ++ rest) =
      match parseAttrs rest with
      | .error e => .error e
      | .ok attrs => .ok ((t, v) :: attrs) := by
  have hshape : encodeAttr t v ++ rest =
      (t.code % 256) :: (t.code / 256 % 256) ::
      ((encodeVal v).length % 256) :: ((encodeVal v).length / 256 % 256) ::
      (encodeVal v ++ rest) := by
    simp [encodeAttr, leBytes]
  rw [hshape, parseAttrs]
  rw [fromLE_two hl, fromLE_two (AttrTag.code_lt t)]
  have hle : (encodeVal v).length ≤ (encodeVal v ++ rest).length := by simp
  rw [dif_pos hle]
  simp only [List.take_left, List.drop_left, AttrTag.fromCode_code, hd]

/-- A payload consisting of the canonical encodings of well-formed
attributes decodes back to exactly those attributes. -/
theorem parseAttrs_flat_encode (attrs : List (AttrTag × AttrVal))
    (h : ∀ p ∈ attrs, decodeAttrVal p.1 (encodeVal p.2) = some p.2 ∧
      (encodeVal p.2).length < 65536) :
    parseAttrs (flat (attrs.map fun p => encodeAttr p.1 p.2)) = .ok attrs := by
  induction attrs with
  | nil => exact parseAttrs_nil
  | cons p ps ih =>
    rw [List.map_cons, flat]
    rw [parseAttrs_encodeAttr_cons (h p (by simp)).1 (h p (by simp)).2]
    rw [ih fun q hq => h q (by simp [hq])]

theorem wf_blob {t : AttrTag} {bs : List Nat} (ht : t.rule = .blob)
    (hb : bs.length < 65536) :
    decodeAttrVal t (encodeVal (.bytes bs)) = some (.bytes bs) ∧
      (encodeVal (.bytes bs)).length < 65536 :=
  ⟨decodeAttrVal_encode_blob ht, by simpa [encodeVal] using hb⟩

theorem wf_uuid {t : AttrTag} {bs : List Nat} (ht : t.rule = .uuid16)
    (hb : bs.length = 16) :
    decodeAttrVal t (encodeVal (.bytes bs)) = some (.bytes bs) ∧
      (encodeVal (.bytes bs)).length < 65536 :=
  ⟨decodeAttrVal_encode_uuid ht hb, by simp [encodeVal, hb]⟩

theorem wf_num {t : AttrTag} {n : Nat} (ht : t.rule = .fixed64)
    (hn : n < 2 ^ 64) :
    decodeAttrVal t (encodeVal (.num n)) = some (.num n) ∧
      (encodeVal (.num n)).length < 65536 :=
  ⟨decodeAttrVal_encode_num ht hn, by simp [encodeVal, leBytes_length]⟩

theorem wf_time {t : AttrTag} {s ns : Nat} (ht : t.rule = .timespec)
    (hs : s < 2 ^ 64) (hns : ns < 1000000000) :
    decodeAttrVal t (encodeVal (.time s ns)) = some (.time s ns) ∧
      (encodeVal (.time s ns)).length < 65536 :=
  ⟨decodeAttrVal_encode_time ht hs (by omega), by simp [encodeVal, leBytes_length]⟩

/-- Every canonical attribute of a valid command is well-formed: it decodes
back to itself under its registry rule and its value fits a u16 length. -/
theorem validCmd_attrs_wf {c : Command} (h : validCmd c = true) :
    ∀ p ∈ c.attrs, decodeAttrVal p.1 (encodeVal p.2) = some p.2 ∧
      (encodeVal p.2).length < 65536 := by
  cases c with
  | chmod cc =>
    simp [validCmd, validBlob, validU32] at h
    intro q hq
    simp [Command.attrs] at hq
    rcases hq with rfl | rfl
    · exact wf_blob rfl (by omega)
    · exact wf_num rfl (by omega)
  | chown cc =>
    simp [validCmd, validBlob, validU32] at h
    intro q hq
    simp [Command.attrs] at hq
    rcases hq with rfl | rfl | rfl
    · exact wf_blob rfl (by omega)
    · exact wf_num rfl (by omega)
    · exact wf_num rfl (by omega)
  | clone cc =>
    simp [validCmd, validBlob, validU64, validUuid] at h
    intro q hq
    simp [Command.attrs] at hq
    rcases hq with rfl | rfl | rfl | rfl | rfl | rfl | rfl
    · exact wf_num rfl (by omega)
    · exact wf_num rfl (by omega)
    · exact wf_blob rfl (by omega)
    · exact wf_uuid rfl (by omega)
    · exact wf_num rfl (by omega)
    · exact wf_blob rfl (by omega)
    · exact wf_num rfl (by omega)
  | end_ =>
    intro q hq
    simp [Command.attrs] at hq
  | link cc =>
    simp [validCmd, validBlob] at h
    intro q hq
    simp [Command.attrs] at hq
    rcases hq with rfl | rfl
    · exact wf_blob rfl (by omega)
    · exact wf_blob rfl (by omega)
  | mkdir cc =>
    simp [validCmd, validBlob, validU64] at h
    intro q hq
    simp [Command.attrs] at hq
    rcases hq with rfl | rfl
    · exact wf_blob rfl (by omega)
    · exact wf_num rfl (by omega)
  | mkfifo cc =>
    simp [validCmd, validBlob, validU64, validU32] at h
    intro q hq
    simp [Command.attrs] at hq
    rcases hq with rfl | rfl | rfl | rfl
    · exact wf_blob rfl (by omega)
    · exact wf_num rfl (by omega)
    · exact wf_num rfl (by omega)
    · exact wf_num rfl (by omega)
  | mkfile cc =>
    simp [validCmd, validBlob, validU64] at h
    intro q hq
    simp [Command.attrs] at hq
    rcases hq with rfl | rfl
    · exact wf_blob rfl (by omega)
    · exact wf_num rfl (by omega)
  | mknod cc =>
    simp [validCmd, validBlob, validU64, validU32] at h
    intro q hq
    simp [Command.attrs] at hq
    rcases hq with rfl | rfl | rfl | rfl
    · exact wf_blob rfl (by omega)
    · exact wf_num rfl (by omega)
    · exact wf_num rfl (by omega)
    · exact wf_num rfl (by omega)
  | mksock cc =>
    simp [validCmd, validBlob, validU64, validU32] at h
    intro q hq
    simp [Command.attrs] at hq
    rcases hq with rfl | rfl | rfl | rfl
    · exact wf_blob rfl (by omega)
    · exact wf_num rfl (by omega)
    · exact wf_num rfl (by omega)
    · exact wf_num rfl (by omega)
  | removeXattr cc =>
    simp [validCmd, validBlob] at h
    intro q hq
    simp [Command.attrs] at hq
    rcases hq with rfl | rfl
    · exact wf_blob rfl (by omega)
    · exact wf_blob rfl (by omega)
  | rename cc =>
    simp [validCmd, validBlob] at h
    intro q hq
    simp [Command.attrs] at hq
    rcases hq with rfl | rfl
    · exact wf_blob rfl (by omega)
    · exact wf_blob rfl (by omega)
  | rmdir cc =>
    simp [validCmd, validBlob] at h
    intro q hq
    simp [Command.attrs] at hq
    rcases hq with rfl
    exact wf_blob rfl (by omega)
  | setXattr cc =>
    simp [validCmd, validBlob] at h
    intro q hq
    simp [Command.attrs] at hq
    rcases hq with rfl | rfl | rfl
    · exact wf_blob rfl (by omega)
    · exact wf_blob rfl (by omega)
    · exact wf_blob rfl (by omega)
  | snapshot cc =>
    simp [validCmd, validBlob, validU64, validUuid] at h
    intro q hq
    simp [Command.attrs] at hq
    rcases hq with rfl | rfl | rfl | rfl | rfl
    · exact wf_blob rfl (by omega)
    · exact wf_uuid rfl (by omega)
    · exact wf_num rfl (by omega)
    · exact wf_uuid rfl (by omega)
    · exact wf_num rfl (by omega)
  | subvol cc =>
    simp [validCmd, validBlob, validU64, validUuid] at h
    intro q hq
    simp [Command.attrs] at hq
    rcases hq with rfl | rfl | rfl
    · exact wf_blob rfl (by omega)
    · exact wf_uuid rfl (by omega)
    · exact wf_num rfl (by omega)
  | symlink cc =>
    simp [validCmd, validBlob, validU64] at h
    intro q hq
    simp [Command.attrs] at hq
    rcases hq with rfl | rfl | rfl
    · exact wf_blob rfl (by omega)
    · exact wf_num rfl (by omega)
    · exact wf_blob rfl (by omega)
  | truncate cc =>
    simp [validCmd, validBlob, validU64] at h
    intro q hq
    simp [Command.attrs] at hq
    rcases hq with rfl | rfl
    · exact wf_blob rfl (by omega)
    · exact wf_num rfl (by omega)
  | unlink cc =>
    simp [validCmd, validBlob] at h
    intro q hq
    simp [Command.attrs] at hq
    rcases hq with rfl
    exact wf_blob rfl (by omega)
  | updateExtent cc =>
    simp [validCmd, validBlob, validU64] at h
    intro q hq
    simp [Command.attrs] at hq
    rcases hq with rfl | rfl | rfl
    · exact wf_blob rfl (by omega)
    · exact wf_num rfl (by omega)
    · exact wf_num rfl (by omega)
  | utimes cc =>
    simp [validCmd, validBlob, validTime] at h
    intro q hq
    simp [Command.attrs] at hq
    rcases hq with rfl | rfl | rfl | rfl
    · exact wf_blob rfl (by omega)
    · exact wf_time rfl (by omega) (by omega)
    · exact wf_time rfl (by omega) (by omega)
    · exact wf_time rfl (by omega) (by omega)
  | write cc =>
    simp [validCmd, validBlob, validU64] at h
    intro q hq
    simp [Command.attrs] at hq
    rcases hq with rfl | rfl | rfl
    · exact wf_blob rfl (by omega)
    · exact wf_num rfl (by omega)
    · exact wf_blob rfl (by omega)

/-- The command builder inverts the canonical attribute listing: rebuilding
a valid command from its own attributes yields the command itself. -/
theorem buildCommand_attrs {c : Command} (h : validCmd c = true) :
    buildCommand c.commandType c.attrs = .ok c := by
  cases c with
  | chmod cc =>
    obtain ⟨p, m⟩ := cc
    simp [validCmd, validBlob, validU32] at h
    simp [Command.commandType, Command.attrs, buildCommand, getBytes, getNum, lookupLast,
      bind, Except.bind, pure, Except.pure]
    omega
  | chown cc =>
    obtain ⟨p, u, g⟩ := cc
    simp [validCmd, validBlob, validU32] at h
    simp [Command.commandType, Command.attrs, buildCommand, getBytes, getNum, lookupLast,
      bind, Except.bind, pure, Except.pure]
    omega
  | clone cc =>
    obtain ⟨a, b, c, d, e, f, g⟩ := cc
    simp [Command.commandType, Command.attrs, buildCommand, getBytes, getNum, lookupLast,
      bind, Except.bind, pure, Except.pure]
  | end_ =>
    simp [Command.commandType, Command.attrs, buildCommand]
  | link cc =>
    obtain ⟨a, b⟩ := cc
    simp [Command.commandType, Command.attrs, buildCommand, getBytes, lookupLast,
      bind, Except.bind, pure, Except.pure]
  | mkdir cc =>
    obtain ⟨⟨p⟩, i⟩ := cc
    simp [Command.commandType, Command.attrs, buildCommand, getBytes, getNum, lookupLast,
      bind, Except.bind, pure, Except.pure]
  | mkfifo cc =>
    obtain ⟨⟨p⟩, i, rd, m⟩ := cc
    simp [validCmd, validBlob, validU64, validU32] at h
    simp [Command.commandType, Command.attrs, buildCommand, getBytes, getNum, lookupLast,
      bind, Except.bind, pure, Except.pure]
    omega
  | mkfile cc =>
    obtain ⟨⟨p⟩, i⟩ := cc
    simp [Command.commandType, Command.attrs, buildCommand, getBytes, getNum, lookupLast,
      bind, Except.bind, pure, Except.pure]
  | mknod cc =>
    obtain ⟨⟨p⟩, i, rd, m⟩ := cc
    simp [validCmd, validBlob, validU64, validU32] at h
    simp [Command.commandType, Command.attrs, buildCommand, getBytes, getNum, lookupLast,
      bind, Except.bind, pure, Except.pure]
    omega
  | mksock cc =>
    obtain ⟨⟨p⟩, i, rd, m⟩ := cc
    simp [validCmd, validBlob, validU64, validU32] at h
    simp [Command.commandType, Command.attrs, buildCommand, getBytes, getNum, lookupLast,
      bind, Except.bind, pure, Except.pure]
    omega
  | removeXattr cc =>
    obtain ⟨a, b⟩ := cc
    simp [Command.commandType, Command.attrs, buildCommand, getBytes, lookupLast,
      bind, Except.bind, pure, Except.pure]
  | rename cc =>
    obtain ⟨a, b⟩ := cc
    simp [Command.commandType, Command.attrs, buildCommand, getBytes, lookupLast,
      bind, Except.bind, pure, Except.pure]
  | rmdir cc =>
    obtain ⟨a⟩ := cc
    simp [Command.commandType, Command.attrs, buildCommand, getBytes, lookupLast,
      bind, Except.bind, pure, Except.pure]
  | setXattr cc =>
    obtain ⟨a, b, d⟩ := cc
    simp [Command.commandType, Command.attrs, buildCommand, getBytes, lookupLast,
      bind, Except.bind, pure, Except.pure]
  | snapshot cc =>
    obtain ⟨a, b, d, e, f⟩ := cc
    simp [Command.commandType, Command.attrs, buildCommand, getBytes, getNum, lookupLast,
      bind, Except.bind, pure, Except.pure]
  | subvol cc =>
    obtain ⟨a, b, d⟩ := cc
    simp [Command.commandType, Command.attrs, buildCommand, getBytes, getNum, lookupLast,
      bind, Except.bind, pure, Except.pure]
  | symlink cc =>
    obtain ⟨a, b, d⟩ := cc
    simp [Command.commandType, Command.attrs, buildCommand, getBytes, getNum, lookupLast,
      bind, Except.bind, pure, Except.pure]
  | truncate cc =>
    obtain ⟨a, b⟩ := cc
    simp [Command.commandType, Command.attrs, buildCommand, getBytes, getNum, lookupLast,
      bind, Except.bind, pure, Except.pure]
  | unlink cc =>
    obtain ⟨a⟩ := cc
    simp [Command.commandType, Command.attrs, buildCommand, getBytes, lookupLast,
      bind, Except.bind, pure, Except.pure]
  | updateExtent cc =>
    obtain ⟨a, b, d⟩ := cc
    simp [Command.commandType, Command.attrs, buildCommand, getBytes, getNum, lookupLast,
      bind, Except.bind, pure, Except.pure]
  | utimes cc =>
    obtain ⟨p, ⟨as, ans⟩, ⟨ms, mns⟩, ⟨cs, cns⟩⟩ := cc
    simp [validCmd, validBlob, validTime] at h
    simp [Command.commandType, Command.attrs, buildCommand, getBytes, getTime, lookupLast,
      bind, Except.bind, pure, Except.pure, mkTime]
    omega
  | write cc =>
    obtain ⟨a, b, d⟩ := cc
    simp [Command.commandType, Command.attrs, buildCommand, getBytes, getNum, lookupLast,
      bind, Except.bind, pure, Except.pure]

/-- An encoded attribute record occupies fewer than 65540 bytes. -/
theorem encodeAttr_length_lt {t : AttrTag} {v : AttrVal}
    (h : (encodeVal v).length < 65536) : (encodeAttr t v).length < 65540 := by
  simp [encodeAttr, leBytes_length]
  omega

theorem flat_encodeAttr_length_le (attrs : List (AttrTag × AttrVal))
    (h : ∀ p ∈ attrs, (encodeVal p.2).length < 65536) :
    (flat (attrs.map fun p => encodeAttr p.1 p.2)).length ≤ attrs.length * 65540 := by
  induction attrs with
  | nil => simp [flat]
  | cons p ps ih =>
    rw [List.map_cons, flat]
    have h1 := encodeAttr_length_lt (t := p.1) (h p (by simp))
    have h2 := ih fun q hq => h q (by simp [hq])
    simp [List.length_append]
    omega

theorem Command.attrs_length_le (c : Command) : c.attrs.length ≤ 7 := by
  cases c <;> simp [Command.attrs]

/-- The canonical payload of a valid command fits the u32 length field. -/
theorem payload_length_lt {c : Command} (h : validCmd c = true) :
    (flat (c.attrs.map fun p => encodeAttr p.1 p.2)).length < 2 ^ 32 := by
  have h1 := flat_encodeAttr_length_le c.attrs fun p hp => (validCmd_attrs_wf h p hp).2
  have h2 := Command.attrs_length_le c
  have : c.attrs.length * 65540 ≤ 7 * 65540 := Nat.mul_le_mul_right _ h2
  omega

/-- Parsing a syntactically well-formed encoded command header with
verified checksum, decodable payload and satisfiable schema succeeds. -/
theorem Command.parse_header (L T C : Nat) (tail : List Nat) (ct : CommandType)
    (attrs : List (AttrTag × AttrVal)) (c : Command)
    (hL : L < 2 ^ 32) (hT : T < 2 ^ 16) (hC : C < 2 ^ 32)
    (hct : CommandType.fromCode T = some ct)
    (hlen : L ≤ tail.length)
    (hcrc : crc32 ([L % 256, L / 256 % 256, L / 256 / 256 % 256,
      L / 256 / 256 / 256 % 256, T % 256, T / 256 % 256] ++ [0, 0, 0, 0] ++
      tail.take L) = C)
    (hpa : parseAttrs (tail.take L) = .ok attrs)
    (hb : buildCommand ct attrs = .ok c) :
    Command.parse (leBytes 4 L ++ leBytes 2 T ++ leBytes 4 C ++ tail) =
      .ok (tail.drop L) c := by
  have e1 : fromLE [L % 256, L / 256 % 256, L / 256 / 256 % 256,
      L / 256 / 256 / 256 % 256] = L := by
    simp [fromLE]
    omega
  have e2 : fromLE [T % 256, T / 256 % 256] = T := fromLE_two hT
  have e3 : fromLE [C % 256, C / 256 % 256, C / 256 / 256 % 256,
      C / 256 / 256 / 256 % 256] = C := by
    simp [fromLE]
    omega
  have hshape : leBytes 4 L ++ leBytes 2 T ++ leBytes 4 C ++ tail =
      (L % 256) :: (L / 256 % 256) :: (L / 256 / 256 % 256) ::
      (L / 256 / 256 / 256 % 256) :: (T % 256) :: (T / 256 % 256) ::
      (C % 256) :: (C / 256 % 256) :: (C / 256 / 256 % 256) ::
      (C / 256 / 256 / 256 % 256) :: tail := by
    simp [leBytes]
  rw [hshape]
  simp only [Command.parse]
  rw [e1, e2, e3]
  simp only [hct]
  rw [if_pos hlen]
  rw [hcrc, if_pos rfl]
  simp only [hpa, hb]

/-- Parsing the canonical encoding of a valid command consumes exactly the
encoding and returns the command. -/
theorem Command.parse_encodeCmd {c : Command} (r : List Nat)
    (h : validCmd c = true) :
    Command.parse (encodeCmd c ++ r) = .ok r c := by
  have hwf := validCmd_attrs_wf h
  set pl := flat (c.attrs.map fun p => encodeAttr p.1 p.2) with hpl
  have hplt : pl.length < 2 ^ 32 := payload_length_lt h
  have htake : (pl ++ r).take pl.length = pl := List.take_left _ _
  have hdrop : (pl ++ r).drop pl.length = r := List.drop_left _ _
  have hshape : encodeCmd c ++ r =
      leBytes 4 pl.length ++ leBytes 2 c.commandType.code ++
      leBytes 4 (crc32 (leBytes 4 pl.length ++ leBytes 2 c.commandType.code ++
        [0, 0, 0, 0] ++ pl)) ++ (pl ++ r) := by
    simp [encodeCmd, hpl]
  rw [hshape]
  have hres := Command.parse_header pl.length c.commandType.code
    (crc32 (leBytes 4 pl.length ++ leBytes 2 c.commandType.code ++ [0, 0, 0, 0] ++ pl))
    (pl ++ r) c.commandType c.attrs c
    hplt (CommandType.code_bound _) (crc32_lt _) (CommandType.fromCode_inv _)
    (by simp) ?_ ?_ ?_
  · rw [hres, hdrop]
  · rw [htake]
    rw [show leBytes 4 pl.length ++ leBytes 2 c.commandType.code =
      [pl.length % 256, pl.length / 256 % 256, pl.length / 256 / 256 % 256,
        pl.length / 256 / 256 / 256 % 256, c.commandType.code % 256,
        c.commandType.code / 256 % 256] from by simp [leBytes]]
  · rw [htake]
    exact parseAttrs_flat_encode c.attrs hwf
  · exact buildCommand_attrs h

/-- The command loop consumes a concatenation of canonical encodings
entirely and returns the commands in order. -/
theorem many0Cmds_flat_encode (cs : List Command)
    (h : ∀ c ∈ cs, validCmd c = true) :
    many0Cmds (flat (cs.map encodeCmd)) = .ok [] cs := by
  induction cs with
  | nil =>
    exact many0Cmds_err (e := .truncated) rfl
  | cons c cs' ih =>
    rw [List.map_cons, flat]
    rw [many0Cmds_ok (Command.parse_encodeCmd _ (h c (by simp)))]
    rw [ih fun q hq => h q (by simp [hq])]

/-- Decoding inverts the reference stream encoder. -/
theorem Sendstream.parse_encodeStream {s : Sendstream} (h : validStream s = true) :
    Sendstream.parse (encodeStream s) = .ok [] s := by
  obtain ⟨cmds⟩ := s
  simp [validStream] at h
  obtain ⟨h1, h2⟩ := h
  obtain ⟨c, cs, rfl⟩ := List.exists_cons_of_ne_nil h1
  have hm1 : many1Cmds (flat (List.map encodeCmd (c :: cs))) = .ok [] (c :: cs) := by
    rw [List.map_cons, flat]
    exact many1Cmds_shape (Command.parse_encodeCmd _ (h2 c (by simp)))
      (many0Cmds_flat_encode cs fun q hq => h2 q (by simp [hq]))
  rw [show encodeStream ⟨c :: cs⟩ =
    MAGIC ++ leBytes 4 1 ++ flat (List.map encodeCmd (c :: cs)) from rfl]
  rw [Sendstream.parse_magic_v1]
  simp only [hm1]

theorem Sendstream.parse_nil : Sendstream.parse [] = .err .headerMismatch := rfl

/-- The public entry point decodes the reference encoding of one valid
stream to exactly that stream. -/
theorem parse_all_encodeStream {s : Sendstream} (h : validStream s = true) :
    Sendstream.parse_all (encodeStream s) = .ok [s] := by
  have hp := Sendstream.parse_encodeStream h
  have h0 : many0Streams ([] : List Nat) = .ok [] [] :=
    many0Streams_err Sendstream.parse_nil
  unfold Sendstream.parse_all many1Streams
  simp [hp, h0]

/-! ## Claims -/

/-- C1: the spec claims `Sendstream::parse_all` never panics and returns a
typed decode failure for every buffer shorter than the 13-byte magic
header.  The code panics instead: `many1(Sendstream::parse)` fails on the
short buffer and `.expect("todo")` aborts.  This theorem evaluates the code
at the failing inputs: every buffer shorter than 13 bytes makes
`parse_all` panic rather than return `Ok` or `Err`. -/
theorem parse_all_short_input_panics (input : List Nat) (h : input.length < 13) :
    Sendstream.parse_all input = .panic := by
  have hne : input.take 13 ≠ MAGIC := by
    intro he
    have := congrArg List.length he
    simp [MAGIC] at this
    omega
  have hp : Sendstream.parse input = .err .headerMismatch := by
    unfold Sendstream.parse
    rw [if_neg hne]
  exact parse_all_panic_of_err hp

/-- Witness for C1 at the empty buffer. -/
theorem parse_all_short_input_panics_witness :
    ([] : List Nat).length < 13 ∧ Sendstream.parse_all [] = .panic :=
  ⟨by decide, parse_all_short_input_panics [] (by decide)⟩

/-- C2 counterexample: a buffer with a valid magic header and version 2
makes decoding panic (`assert_eq!(1, version)`), so decoding does not
return a typed fatal decode failure as claimed. -/
theorem parse_all_version2_not_err :
    Sendstream.parse_all (MAGIC ++ [2, 0, 0, 0]) = .panic ∧
      ∀ e : Error, Sendstream.parse_all (MAGIC ++ [2, 0, 0, 0]) ≠ .err e := by
  constructor
  · decide
  · intro e
    simp [show Sendstream.parse_all (MAGIC ++ [2, 0, 0, 0]) = .panic by decide]

/-- C2 amended: for every buffer whose magic header is valid but whose
little-endian 32-bit version field is not 1, decoding panics via the
`assert_eq!(1, version)` assertion rather than returning a typed error;
only version 1 proceeds. -/
theorem parse_all_bad_version_panics (v : Nat) (rest : List Nat)
    (h32 : v < 2 ^ 32) (hne : v ≠ 1) :
    Sendstream.parse_all (MAGIC ++ leBytes 4 v ++ rest) = .panic := by
  have hp : Sendstream.parse (MAGIC ++ leBytes 4 v ++ rest) = .panic := by
    unfold Sendstream.parse
    rw [List.append_assoc, take13_magic_append, if_pos rfl, drop13_magic_append,
      readU32_leBytes h32]
    exact if_neg hne
  exact parse_all_panic_of_panic hp

/-- Witness for the amended C2 at version 7. -/
theorem parse_all_bad_version_panics_witness :
    7 < 2 ^ 32 ∧ 7 ≠ 1 ∧
      Sendstream.parse_all (MAGIC ++ leBytes 4 7 ++ [5]) = .panic :=
  ⟨by decide, by decide, parse_all_bad_version_panics 7 [5] (by decide) (by decide)⟩

/-- C3: the spec claims all seven failure classes are surfaced as
distinguishable variants of the typed error result.  In the code the public
`Error` enum has exactly one variant, `TrailingData` (the granular variants
are a TODO comment), and every other failure class panics inside
`parse_all`; e.g. a 13-byte buffer of zeros (magic mismatch,
`HeaderMismatch` class) panics instead of returning a typed error. -/
theorem error_taxonomy_collapsed :
    (∀ e : Error, ∃ bs, e = Error.trailingData bs) ∧
      Sendstream.parse_all (List.replicate 13 0) = .panic := by
  constructor
  · intro e
    cases e with
    | trailingData bs => exact ⟨bs, rfl⟩
  · decide

/-- C4: whenever the stream loop succeeds and leaves a non-empty remainder
of unconsumed bytes, `parse_all` fails with `TrailingData` carrying exactly
that remainder. -/
theorem parse_all_trailing_data (input left : List Nat) (streams : List Sendstream)
    (h : many1Streams input = .ok left streams) (hne : left ≠ []) :
    Sendstream.parse_all input = .err (.trailingData left) := by
  unfold Sendstream.parse_all
  rw [h]
  exact if_neg hne

/-- Witness for C4: one valid stream followed by 3 extra bytes decodes the
stream but fails overall with `TrailingData [1, 2, 3]`. -/
theorem parse_all_trailing_data_witness :
    many1Streams (encodeStream ⟨[.end_]⟩ ++ [1, 2, 3]) =
        .ok [1, 2, 3] [⟨[.end_]⟩] ∧
      ([1, 2, 3] : List Nat) ≠ [] ∧
      Sendstream.parse_all (encodeStream ⟨[.end_]⟩ ++ [1, 2, 3]) =
        .err (.trailingData [1, 2, 3]) := by
  have hps : Sendstream.parse (encodeStream ⟨[.end_]⟩) = .ok [] ⟨[.end_]⟩ :=
    Sendstream.parse_encodeStream (by decide)
  have he3 : Command.parse [1, 2, 3] = .err .truncated := rfl
  have hp2 : Sendstream.parse (encodeStream ⟨[.end_]⟩ ++ [1, 2, 3]) =
      .ok [1, 2, 3] ⟨[.end_]⟩ :=
    Sendstream.parse_extend hps he3
  have h123 : Sendstream.parse [1, 2, 3] = .err .headerMismatch := by decide
  have h0 : many0Streams [1, 2, 3] = .ok [1, 2, 3] [] := many0Streams_err h123
  have hm : many1Streams (encodeStream ⟨[.end_]⟩ ++ [1, 2, 3]) =
      .ok [1, 2, 3] [⟨[.end_]⟩] := by
    unfold many1Streams
    rw [hp2]
    simp [h0]
  exact ⟨hm, by decide, parse_all_trailing_data _ _ _ hm (by decide)⟩

/-- C5 counterexample: a stream consisting of a single `Rmdir` command and
no `End` is accepted by `parse_all` (the command loop is the greedy
`many1`, not a loop-until-End), so a returned Stream's final element need
not be the End command. -/
theorem stream_without_end_accepted :
    Sendstream.parse_all (encodeStream ⟨[.rmdir ⟨[97]⟩]⟩) =
        .ok [⟨[.rmdir ⟨[97]⟩]⟩] ∧
      [Command.rmdir ⟨[97]⟩].getLast? = some (.rmdir ⟨[97]⟩) ∧
      Command.rmdir ⟨[97]⟩ ≠ Command.end_ :=
  ⟨parse_all_encodeStream (by decide), by decide, by decide⟩

/-- C5 amended: commands are accumulated greedily (`many1`), not until an
End command; an End command, when parsed, is included in its Stream's
command sequence (as its final element when it is the last command of the
stream section), but a returned Stream need not end with End. -/
theorem stream_end_command_included :
    Sendstream.parse_all (encodeStream ⟨[.end_]⟩) = .ok [⟨[.end_]⟩] ∧
      Sendstream.parse_all (encodeStream ⟨[.rmdir ⟨[97]⟩, .end_]⟩) =
        .ok [⟨[.rmdir ⟨[97]⟩, .end_]⟩] ∧
      [Command.rmdir ⟨[97]⟩, Command.end_].getLast? = some Command.end_ :=
  ⟨parse_all_encodeStream (by decide), parse_all_encodeStream (by decide), by decide⟩

/-- C6: the concatenation of two complete streams decodes to exactly those
two streams in buffer order, with zero trailing bytes. -/
theorem parse_all_two_streams (b1 b2 : List Nat) (s1 s2 : Sendstream)
    (h1 : Sendstream.parse b1 = .ok [] s1)
    (h2 : Sendstream.parse b2 = .ok [] s2) :
    Sendstream.parse_all (b1 ++ b2) = .ok [s1, s2] := by
  have hmag := Sendstream.parse_ok_magic h2
  have hb2 : b2 = MAGIC ++ b2.drop 13 := by
    conv_lhs => rw [← List.take_append_drop 13 b2]
    rw [hmag]
  have hce : Command.parse b2 = .err .unknownCommandType := by
    rw [hb2]
    exact Command.parse_magic_err _
  have hp1 : Sendstream.parse (b1 ++ b2) = .ok b2 s1 :=
    Sendstream.parse_extend h1 hce
  have h0 : many0Streams b2 = .ok [] [s2] := by
    rw [many0Streams_ok h2, many0Streams_err Sendstream.parse_nil]
  unfold Sendstream.parse_all many1Streams
  rw [hp1]
  simp [h0]

/-- Witness for C6: two concatenated one-End-command streams decode to two
streams in order. -/
theorem parse_all_two_streams_witness :
    Sendstream.parse (encodeStream ⟨[.end_]⟩) = .ok [] ⟨[.end_]⟩ ∧
      Sendstream.parse_all (encodeStream ⟨[.end_]⟩ ++ encodeStream ⟨[.end_]⟩) =
        .ok [⟨[.end_]⟩, ⟨[.end_]⟩] := by
  have hp : Sendstream.parse (encodeStream ⟨[.end_]⟩) = .ok [] ⟨[.end_]⟩ :=
    Sendstream.parse_encodeStream (by decide)
  exact ⟨hp, parse_all_two_streams _ _ _ _ hp hp⟩

set_option maxRecDepth 40000 in
set_option maxHeartbeats 1000000 in
/-- C7: flipping any single bit of the stored crc32 of an otherwise valid
End command makes the command framer fail checksum verification (the
modelled internal `ChecksumMismatch`); but the claimed typed
`ChecksumMismatch` error does not reach the caller — `parse_all` panics on
it via `.expect("todo")` (the public `Error` enum has no such variant). -/
theorem checksum_flip_rejected :
    ((List.range 32).all fun i =>
      decide (Command.parse ([0, 0, 0, 0, 21, 0] ++
        leBytes 4 (crc32 ([0, 0, 0, 0, 21, 0] ++ [0, 0, 0, 0]) ^^^ (1 <<< i))) =
        .err .checksumMismatch)) = true ∧
      Sendstream.parse_all (MAGIC ++ [1, 0, 0, 0] ++ ([0, 0, 0, 0, 21, 0] ++
        leBytes 4 (crc32 ([0, 0, 0, 0, 21, 0] ++ [0, 0, 0, 0]) ^^^ 1))) = .panic := by
  constructor
  · decide
  · decide

/-- C8: decoding is deterministic — equal input buffers give identical
results.  In this shallow embedding `parse_all` is a pure function of the
buffer contents, which also models that the Rust decoder takes the buffer
by shared reference and never mutates it. -/
theorem parse_all_deterministic (b1 b2 : List Nat) (h : b1 = b2) :
    Sendstream.parse_all b1 = Sendstream.parse_all b2 := by
  rw [h]

/-- Witness for C8 at a concrete buffer. -/
theorem parse_all_deterministic_witness :
    Sendstream.parse_all (MAGIC ++ [1, 0, 0, 0]) =
      Sendstream.parse_all (MAGIC ++ [1, 0, 0, 0]) :=
  parse_all_deterministic (MAGIC ++ [1, 0, 0, 0]) (MAGIC ++ [1, 0, 0, 0]) rfl

/-- C10: whenever `parse_all` returns `Ok` the stream list is non-empty and
every stream has at least one command (`many1` at both levels); the empty
buffer in particular is never accepted. -/
theorem parse_all_ok_nonempty :
    (∀ input streams, Sendstream.parse_all input = .ok streams →
      streams ≠ [] ∧ ∀ s ∈ streams, s.commands ≠ []) ∧
      ∀ streams, Sendstream.parse_all [] ≠ .ok streams := by
  constructor
  · intro input streams h
    unfold Sendstream.parse_all at h
    split at h
    next => exact absurd h (by simp)
    next => exact absurd h (by simp)
    next left ss hm =>
      split at h
      case isTrue =>
        rw [POutcome.ok.injEq] at h
        subst h
        unfold many1Streams at hm
        split at hm
        next => exact absurd hm (by simp)
        next => exact absurd hm (by simp)
        next r s hp =>
          split at hm
          next => exact absurd hm (by simp)
          next => exact absurd hm (by simp)
          next r2 ss2 hms =>
            rw [PResult.ok.injEq] at hm
            rw [← hm.2]
            constructor
            · simp
            · intro s' hs'
              rcases List.mem_cons.mp hs' with h1 | h1
              · rw [h1]
                exact Sendstream.parse_ok_commands_ne hp
              · exact many0Streams_commands_ne r r2 ss2 hms s' h1
      case isFalse => exact absurd h (by simp)
  · intro streams h
    rw [show Sendstream.parse_all [] = .panic by decide] at h
    exact absurd h (by simp)

/-- Witness for C10 at a concrete accepted buffer. -/
theorem parse_all_ok_nonempty_witness :
    ([⟨[Command.end_]⟩] : List Sendstream) ≠ [] ∧
      ∀ s ∈ ([⟨[Command.end_]⟩] : List Sendstream), s.commands ≠ [] :=
  parse_all_ok_nonempty.1 (encodeStream ⟨[.end_]⟩) [⟨[Command.end_]⟩]
    (parse_all_encodeStream (by decide))

/-- C9: round-trip identity — encoding any valid Stream value to its wire
bytes (the spec's bit-exact format: magic, version 1, and for each command
a length/type/crc32 header followed by the TLV attributes) and decoding
those bytes through `Sendstream::parse_all` yields exactly that Stream,
over all 22 Command variants and all of their fields. -/
theorem encode_decode_roundtrip (s : Sendstream) (h : validStream s = true) :
    Sendstream.parse_all (encodeStream s) = .ok [s] :=
  parse_all_encodeStream h

/-- Witness for C9 at a concrete five-command stream. -/
theorem encode_decode_roundtrip_witness :
    validStream ⟨[.mkfile ⟨⟨[97]⟩, 1⟩, .write ⟨[97], 0, [104, 105]⟩,
        .chmod ⟨[97], 420⟩, .utimes ⟨[97], ⟨1, 2⟩, ⟨3, 4⟩, ⟨5, 6⟩⟩, .end_]⟩ = true ∧
      Sendstream.parse_all (encodeStream ⟨[.mkfile ⟨⟨[97]⟩, 1⟩,
        .write ⟨[97], 0, [104, 105]⟩, .chmod ⟨[97], 420⟩,
        .utimes ⟨[97], ⟨1, 2⟩, ⟨3, 4⟩, ⟨5, 6⟩⟩, .end_]⟩) =
        .ok [⟨[.mkfile ⟨⟨[97]⟩, 1⟩, .write ⟨[97], 0, [104, 105]⟩,
          .chmod ⟨[97], 420⟩, .utimes ⟨[97], ⟨1, 2⟩, ⟨3, 4⟩, ⟨5, 6⟩⟩, .end_]⟩] :=
  ⟨by decide, encode_decode_roundtrip _ (by decide)⟩

end Btrfs
